import Mathlib

/-!
# Verification of the lawn-lapse Scheduling & Historical Backfill Engine

Shallow embedding of the core of the repository:

* the backfill walker of `fetchMissingSnapshots`
  (capture-and-timelapse.js, the current version embedded in the repo),
* the interval slot generator `generateIntervalSlots` and the
  `generateDailySlots` dispatcher (scheduling.js),
* the distribution analyzer `analyzeSnapshotDistribution`,
* the daily-video mtime cache check of `generateDailyVideo`,
* the concat-list construction of `concatenateDailyVideos`,
* the per-camera loop of `main`.

Machine dates are modelled as `Nat` values: the filename components
`YYYY-MM-DD` and `HHMM` are fixed-width digit strings, on which JavaScript's
`localeCompare` / lexicographic comparison agrees with numeric comparison.
Timestamps (mtimes, milliseconds) are modelled as `Nat`.
-/

/-! ## Backfill walker (fetchMissingSnapshots)

The walker classifies archive error messages with three regular expressions:

* fatal:      /failed to login|eperm|econnrefused|unauthorized|forbidden|invalid credentials|network unreachable/
* no-data:    /404|no data|no recording|no video data|not found|taking too long|throttling api calls|timed out/
* not-found:  /404|not found/

`ErrMsg` enumerates representative message classes, one per alternative of
the regexes, plus `other` for messages matching none of them.  Note that
every not-found match ("404", "not found") is also a no-data match in the
source. -/

inductive ErrMsg
  | timedOut
  | takingTooLong
  | throttled
  | noData
  | noRecording
  | noVideoData
  | http404
  | notFoundText
  | failedToLogin
  | eperm
  | econnrefused
  | unauthorized
  | forbidden
  | invalidCredentials
  | networkUnreachable
  | other
deriving DecidableEq, Repr

/-- `fatalConnectionError` regex of the source. -/
def isFatalMsg : ErrMsg → Bool
  | .failedToLogin | .eperm | .econnrefused | .unauthorized
  | .forbidden | .invalidCredentials | .networkUnreachable => true
  | _ => false

/-- `looksLikeNoData` regex of the source. -/
def looksLikeNoData : ErrMsg → Bool
  | .http404 | .noData | .noRecording | .noVideoData | .notFoundText
  | .takingTooLong | .throttled | .timedOut => true
  | _ => false

/-- `looksLikeNotFound` regex of the source. -/
def looksLikeNotFound : ErrMsg → Bool
  | .http404 | .notFoundText => true
  | _ => false

/-- One valid (non-future) slot of a day, as the walker sees it:
either the snapshot file already exists in `existingSnapshots`, or the
walker attempts an archive export, which either succeeds (`attempt none`)
or fails with an error message (`attempt (some m)`). -/
inductive SlotSpec
  | existing
  | attempt (result : Option ErrMsg)
deriving DecidableEq, Repr

/-- The mutable counters of `fetchMissingSnapshots`:
`capturedCount`, `skippedCount`, `failedCount`, `consecutiveNoData`,
`consecutiveNotFound`, `consecutiveFailures`, `attemptCount`. -/
structure BackfillCounters where
  captured : Nat
  skipped : Nat
  failed : Nat
  noData : Nat
  notFound : Nat
  failures : Nat
  attempts : Nat
deriving DecidableEq, Repr

def initCounters : BackfillCounters :=
  ⟨0, 0, 0, 0, 0, 0, 0⟩

/-- Result of processing the valid slots of one day: either the per-slot
loop ran to completion (carrying `dayHadAnyData`), or a fatal-class error
aborted the whole backfill from inside the day. -/
inductive DayOutcome
  | done (c : BackfillCounters) (dayHadAnyData : Bool)
  | fatal (c : BackfillCounters) (m : ErrMsg)
deriving DecidableEq, Repr

/-- The `for (const slot of validSlots)` loop body of `fetchMissingSnapshots`:
an existing file counts as skipped and marks the day as having data; an
attempted export increments `attemptCount`; success resets all three
consecutive counters; a fatal-class failure rethrows (aborting); any other
failure increments `consecutiveFailures` and conditionally the
no-data / not-found counters (resetting them otherwise). -/
def processSlots : List SlotSpec → BackfillCounters → Bool → DayOutcome
  | [], c, had => .done c had
  | .existing :: rest, c, _ =>
      processSlots rest { c with skipped := c.skipped + 1 } true
  | .attempt none :: rest, c, _ =>
      processSlots rest
        { c with attempts := c.attempts + 1, captured := c.captured + 1,
                 noData := 0, notFound := 0, failures := 0 } true
  | .attempt (some m) :: rest, c, had =>
      let c1 := { c with attempts := c.attempts + 1, failed := c.failed + 1 }
      if isFatalMsg m then
        .fatal c1 m
      else
        processSlots rest
          { c1 with failures := c1.failures + 1,
                    noData := if looksLikeNoData m then c1.noData + 1 else 0,
                    notFound := if looksLikeNotFound m then c1.notFound + 1 else 0 }
          had

/-- Why the walking loop ended. `fuelOut` is a modelling artifact: it is
proved unreachable for the fuel used by `runBackfill`
(see `walkFrom_safety`). -/
inductive WalkExit
  | maxDaysReached
  | hardLimit
  | notFoundStop
  | noDataStop
  | failuresStop
  | fatal (m : ErrMsg)
  | fuelOut
deriving DecidableEq, Repr

structure WalkResult where
  counters : BackfillCounters
  processedDays : List Nat
  finalOffset : Nat
  exit : WalkExit
deriving DecidableEq, Repr

/-- `HARD_LIMIT_DAYS = 365` of the source. -/
def HARD_LIMIT_DAYS : Nat := 365

/-- `maxDays !== null && dayOffset >= maxDays`. -/
def maxDaysHit (maxDays : Option Nat) (d : Nat) : Bool :=
  match maxDays with
  | none => false
  | some md => md ≤ d

/-- `typeof maxNoData === "number" && consecutiveNoData >= maxNoData`
(`none` models a configured non-numeric value, `some 7` the default). -/
def noDataLimitHit (maxNoData : Option Nat) (c : BackfillCounters) : Bool :=
  match maxNoData with
  | none => false
  | some k => k ≤ c.noData

/-- The `for (let dayOffset = 0; ; dayOffset++)` loop of
`fetchMissingSnapshots`.  `env d` is the list of valid (non-future) slots
of the day `dayOffset = d`; an empty list models a future day, a failed
`generateDailySlots` call, or a day whose slots were all filtered out —
all of which `continue` without evaluating the stop conditions.
The loop checks, in source order: the configured `maxDays`, the hard
365-day ceiling; then processes the day's slots (a fatal error aborts);
and for a day with no data it stops on three consecutive not-found
responses, on the configured no-data limit, or on three consecutive
fetch failures.  `fuel` bounds the number of iterations. -/
def walkFrom (env : Nat → List SlotSpec) (maxDays maxNoData : Option Nat) :
    Nat → Nat → BackfillCounters → List Nat → WalkResult
  | 0, d, c, p => ⟨c, p, d, .fuelOut⟩
  | fuel + 1, d, c, p =>
    if maxDaysHit maxDays d then ⟨c, p, d, .maxDaysReached⟩
    else if HARD_LIMIT_DAYS ≤ d then ⟨c, p, d, .hardLimit⟩
    else
      match env d with
      | [] => walkFrom env maxDays maxNoData fuel (d + 1) c p
      | s :: ss =>
        match processSlots (s :: ss) c false with
        | .fatal c1 m => ⟨c1, p ++ [d], d, .fatal m⟩
        | .done c1 had =>
          if had then walkFrom env maxDays maxNoData fuel (d + 1) c1 (p ++ [d])
          else if 3 ≤ c1.notFound then ⟨c1, p ++ [d], d, .notFoundStop⟩
          else if noDataLimitHit maxNoData c1 then ⟨c1, p ++ [d], d, .noDataStop⟩
          else if 3 ≤ c1.failures then ⟨c1, p ++ [d], d, .failuresStop⟩
          else walkFrom env maxDays maxNoData fuel (d + 1) c1 (p ++ [d])

/-- A whole backfill pass: walk from `dayOffset = 0` with fresh counters.
`HARD_LIMIT_DAYS + 1` iterations always suffice (`walkFrom_safety` below). -/
def runBackfill (env : Nat → List SlotSpec) (maxDays maxNoData : Option Nat) :
    WalkResult :=
  walkFrom env maxDays maxNoData (HARD_LIMIT_DAYS + 1) 0 initCounters []

/-- Simulated archive for C1: every request fails with a generic
timeout (NoData-class, not an explicit not-found, not fatal). -/
def envAlwaysNoData : Nat → List SlotSpec :=
  fun _ => [.attempt (some .timedOut)]

/-- Simulated archive for C2's counterexample: three slots per day, each
answered with an explicit 404 (NotFound-class). -/
def envThreeNotFoundSlots : Nat → List SlotSpec :=
  fun _ => [.attempt (some .http404), .attempt (some .http404),
            .attempt (some .http404)]

/-- Simulated archive: one slot per day, each answered with 404. -/
def envAlwaysNotFound : Nat → List SlotSpec :=
  fun _ => [.attempt (some .http404)]

/-! ## Slot generation (scheduling.js)

Slot instants are modelled as nonnegative epoch milliseconds (`Date` time
values are whole milliseconds after `TimeClip`; timezone handling is the
identity, i.e. UTC).  The interval walk of `generateIntervalSlots`
advances the running time with
`currentTime.setMinutes(currentTime.getMinutes() + intervalMinutes)` where
`intervalMinutes = 60 / shotsPerHour` is an IEEE-754 double and may be
fractional.  Per the ECMA `Date` semantics this computes, in double
precision, `MakeDate(Day(t), MakeTime(HourFromTime(t), m, SecFromTime(t),
msFromTime(t)))` with `m = MinFromTime(t) + intervalMinutes`, then
truncates toward zero (`TimeClip`).  The double arithmetic is modelled
exactly: every double arising in this chain is an integer multiple of
`2^-52` (all inputs are, the only products are by the integer constants
60000, 3600000, 1000, 86400000, and rounding only coarsens), so doubles
are represented as integers scaled by `2^52` (`msScale`), and each
operation result is re-rounded to 53 significant bits with
round-to-nearest, ties-to-even (`flScaled`), exactly as IEEE-754 demands.
Consequences proved below: the spacing is not exactly
`60/shotsPerHour` minutes in general (it is truncated to whole
milliseconds, and can even vary by a millisecond between iterations —
for `shotsPerHour = 9` starting 1970-01-01 00:00 the fifth step is
399999 ms — while for `shotsPerHour` dividing 60 every quantity is
exactly representable and the spacing is exactly `60/shotsPerHour`
minutes). -/

def msPerMinute : Nat := 60000

def msPerHour : Nat := 3600000

/-- Number of binary digits of `n` (0 for 0).  Structural fuel recursion
so that kernel reduction works; 200 iterations cover every value below
`2^200`, far above the `< 2^106` scaled values of the `Date` chain. -/
def bitLenAux : Nat → Nat → Nat
  | 0, _ => 0
  | fuel + 1, n => if n = 0 then 0 else bitLenAux fuel (n / 2) + 1

def bitLen (n : Nat) : Nat :=
  bitLenAux 200 n

/-- Round `a / d` to the nearest integer, ties to even (the IEEE-754
default rounding). -/
def roundHalfEvenDiv (a d : Nat) : Nat :=
  let q := a / d
  let r := a % d
  if 2 * r < d then q
  else if d < 2 * r then q + 1
  else if q % 2 = 0 then q else q + 1

/-- Round the exact value `a * 2^-52` to the nearest IEEE-754 double
(53 significant bits, round-to-nearest, ties-to-even); result again
scaled by `2^52`.  Values of at most 53 bits are exact; larger values are
rounded to a multiple of their unit in the last place `2^(L-53)`. -/
def flScaledN (a : Nat) : Nat :=
  let L := bitLen a
  if L ≤ 53 then a
  else roundHalfEvenDiv a (2 ^ (L - 53)) * 2 ^ (L - 53)

def flScaled (v : Int) : Int :=
  if 0 ≤ v then (flScaledN v.toNat : Int) else -(flScaledN (-v).toNat : Int)

/-- The IEEE-754 double nearest to `a / b` (for `1 ≤ a / b`, as in
`60 / shotsPerHour`), scaled by `2^52`: locate the binade
`2^E ≤ a/b < 2^(E+1)`, then round the 53-bit mantissa to nearest, ties to
even. -/
def flDivScaled (a b : Nat) : Nat :=
  let E0 := bitLen a - bitLen b
  let E := if a < b * 2 ^ E0 then E0 - 1 else E0
  roundHalfEvenDiv (a * 2 ^ (52 - E)) b * 2 ^ E

/-- The double scale `2^52`. -/
def msScale : Nat := 2 ^ 52

/-- `currentTime.setMinutes(currentTime.getMinutes() + offset + delta)`
on the time value `t`, per ECMA-262: `deltaS` is the (scaled) double
increment, `offset` an exactly-representable integer shift (0 for the
interval walk, `sunriseOffset` for the first interior sunrise slot).
Every `+`/`*` of `MakeTime`/`MakeDate` is a double operation
(`flScaled`), evaluated left-to-right as in
`((h*msPerHour + m*msPerMinute) + s*msPerSecond) + milli`, then
`Day(t)*msPerDay + time`; `TimeClip` truncates toward zero. -/
def ecmaAddMinutes (offset deltaS : Int) (t : Nat) : Nat :=
  let mV := flScaled ((((t / 60000 % 60 : Nat) : Int) + offset) * msScale + deltaS)
  let p1 := flScaled ((t / 3600000 % 24 * 3600000 * msScale : Nat) : Int)
  let p2 := flScaled (mV * 60000)
  let p3 := flScaled ((t / 1000 % 60 * 1000 * msScale : Nat) : Int)
  let a1 := flScaled (p1 + p2)
  let a2 := flScaled (a1 + p3)
  let tt := flScaled (a2 + ((t % 1000 * msScale : Nat) : Int))
  let d1 := flScaled ((t / 86400000 * 86400000 * msScale : Nat) : Int)
  let v := flScaled (d1 + tt)
  (if 0 ≤ v then v / (msScale : Int) else -((-v) / (msScale : Int))).toNat

/-- The `while (currentTime <= endTime)` loop of `generateIntervalSlots`:
emit the current time, then advance it with the `setMinutes` update
`adv`.  Structural fuel keeps the definition kernel-computable; the fuel
`endMs + 1 - startMs` used below never runs out, since every real
`setMinutes` advance moves time forward by at least one millisecond (the
`t < adv t` guard, which also never fails in reality, covers Lean's
totality for arbitrary `adv`). -/
def intervalLoopLE (adv : Nat → Nat) (endMs : Nat) : Nat → Nat → List Nat
  | 0, _ => []
  | fuel + 1, t =>
    if t ≤ endMs then
      t :: (if t < adv t then intervalLoopLE adv endMs fuel (adv t) else [])
    else []

/-- The `while (currentTime < endTime)` interior loop of
`generateSunriseSlots` (strict comparison, unlike the window loop). -/
def intervalLoopLT (adv : Nat → Nat) (endMs : Nat) : Nat → Nat → List Nat
  | 0, _ => []
  | fuel + 1, t =>
    if t < endMs then
      t :: (if t < adv t then intervalLoopLT adv endMs fuel (adv t) else [])
    else []

/-- `generateIntervalSlots` of scheduling.js: window bounds are the
parsed `window.startHour` / `window.endHour` on the target day, as
integer epoch milliseconds (`setHours` with integer arguments is exact). -/
def generateIntervalSlots (shotsPerHour startMs endMs : Nat) : List Nat :=
  intervalLoopLE (ecmaAddMinutes 0 (flDivScaled 60 shotsPerHour)) endMs
    (endMs + 1 - startMs) startMs

/-- `generateFixedTimeSlots`: one slot per configured time (parsed "HH:MM"
as milliseconds of the day, seconds and milliseconds zero), sorted
ascending with `slots.sort((a, b) => a - b)`. -/
def generateFixedTimeSlots (times : List Nat) : List Nat :=
  times.insertionSort (fun a b => a ≤ b)

/-- `{lat, lon}` pair consumed by sunrise/sunset scheduling. -/
structure Location where
  lat : Rat
  lon : Rat
deriving DecidableEq, Repr

/-- Sunrise and sunset instants (epoch milliseconds) as returned by the
external `SunCalc.getTimes`; `none` models the case where SunCalc yields
no valid times for the date. -/
structure SunTimes where
  sunrise : Nat
  sunset : Nat
deriving DecidableEq, Repr

inductive ScheduleMode
  | fixedTime
  | interval
  | sunriseSunset
  | unknown
deriving DecidableEq, Repr

structure ScheduleWindow where
  startMs : Nat
  endMs : Nat
deriving DecidableEq, Repr

/-- Schedule configuration, with the fields the generator reads.
`intervalShots` is `interval.shotsPerHour` (`none` when no `interval`
object is configured); offsets are signed minutes. -/
structure Schedule where
  mode : ScheduleMode
  fixedTimes : List Nat
  intervalShots : Option Nat
  window : ScheduleWindow
  captureSunrise : Bool
  captureSunset : Bool
  sunriseOffset : Int
  sunsetOffset : Int
deriving DecidableEq, Repr

/-- JavaScript `interval.shotsPerHour || 1`: missing or zero falls back
to the default. -/
def orDefaultNat (v : Option Nat) (dflt : Nat) : Nat :=
  match v with
  | none => dflt
  | some 0 => dflt
  | some s => s

/-- JavaScript truthiness of a number: `0` (and `NaN`, not representable
here) is falsy. -/
def jsTruthyNum (x : Rat) : Bool :=
  x != 0

/-- `generateSunriseSlots`: emit the offset sunrise slot unless
`captureSunrise === false`, likewise for sunset; when an interval with
positive `shotsPerHour` is configured, emit additional slots from one
`setMinutes` advance past the offset sunrise up to (strictly before) the
offset sunset; sort ascending.  The whole-minute offset applications are
integer-exact `setMinutes` calls (modelled with truncated subtraction;
real sunrise epoch values of about `10^12` ms dwarf any configured
offset); the first interior slot folds `sunriseOffset` into the same
`setMinutes` call as the fractional increment, as the source does. -/
def generateSunriseSlots (sun : Option SunTimes) (sched : Schedule) : List Nat :=
  match sun with
  | none => []
  | some st =>
    let sunriseSlot := (st.sunrise + sched.sunriseOffset * msPerMinute).toNat
    let sunsetSlot := (st.sunset + sched.sunsetOffset * msPerMinute).toNat
    let base :=
      (if sched.captureSunrise then [sunriseSlot] else []) ++
      (if sched.captureSunset then [sunsetSlot] else [])
    let withInterval :=
      match sched.intervalShots with
      | some s =>
          if 0 < s then
            let deltaS : Int := flDivScaled 60 s
            let first := ecmaAddMinutes sched.sunriseOffset deltaS st.sunrise
            base ++ intervalLoopLT (ecmaAddMinutes 0 deltaS) sunsetSlot
              (sunsetSlot + 1 - first) first
          else base
      | none => base
    withInterval.insertionSort (fun a b => a ≤ b)

inductive SlotGenError
  | locationRequired
deriving DecidableEq, Repr

/-- `generateDailySlots` of scheduling.js: dispatch on `schedule.mode`.
The sunrise-sunset branch guards
`if (!location || !location.lat || !location.lon) throw ...`, with
JavaScript's number truthiness; the external `SunCalc` computation is a
parameter `sun`, consulted only past the guard.  The default branch
produces a single fixed-time slot at noon. -/
def generateDailySlots (sun : Rat → Rat → Option SunTimes) (sched : Schedule)
    (location : Option Location) : Except SlotGenError (List Nat) :=
  match sched.mode with
  | .fixedTime => .ok (generateFixedTimeSlots sched.fixedTimes)
  | .interval =>
      .ok (generateIntervalSlots (orDefaultNat sched.intervalShots 1)
            sched.window.startMs sched.window.endMs)
  | .sunriseSunset =>
      match location with
      | none => .error .locationRequired
      | some loc =>
          if jsTruthyNum loc.lat = false then .error .locationRequired
          else if jsTruthyNum loc.lon = false then .error .locationRequired
          else .ok (generateSunriseSlots (sun loc.lat loc.lon) sched)
  | .unknown => .ok (generateFixedTimeSlots [12 * msPerHour])

/-! ## Distribution analyzer, video cache and concatenation
(capture-and-timelapse.js) -/

/-- A stored snapshot whose filename matched
`/^(\d{4}-\d{2}-\d{2})_(\d{4})\.jpg$/`.  Both captured groups are
fixed-width digit strings, so `localeCompare` on them coincides with
numeric comparison; they are modelled as `Nat`. -/
structure Frame where
  date : Nat
  time : Nat
deriving DecidableEq, Repr

/-- One step of filling a JavaScript `Map` of arrays:
`if (!m.has(k)) m.set(k, []); m.get(k).push(v)` — an existing key keeps
its position and appends, a new key is appended at the end of the
iteration order. -/
def insertGrouped (key : Frame → Nat) (f : Frame) :
    List (Nat × List Frame) → List (Nat × List Frame)
  | [] => [(key f, [f])]
  | g :: rest =>
      if g.1 = key f then (g.1, g.2 ++ [f]) :: rest
      else g :: insertGrouped key f rest

/-- Grouping a frame list by a key, preserving the `Map` iteration
order (keys in first-encounter order, values in input order). -/
def groupByKey (key : Frame → Nat) (frames : List Frame) :
    List (Nat × List Frame) :=
  frames.foldl (fun gs f => insertGrouped key f gs) []

structure DailyVideoEntry where
  date : Nat
  snapshots : List Frame
deriving DecidableEq, Repr

structure TimeGroupEntry where
  time : Nat
  snapshots : List Frame
deriving DecidableEq, Repr

instance : IsTotal Frame (fun a b => a.time ≤ b.time) :=
  ⟨fun a b => Nat.le_total a.time b.time⟩

instance : IsTrans Frame (fun a b => a.time ≤ b.time) :=
  ⟨fun _ _ _ => Nat.le_trans⟩

instance : IsTotal Frame (fun a b => a.date ≤ b.date) :=
  ⟨fun a b => Nat.le_total a.date b.date⟩

instance : IsTrans Frame (fun a b => a.date ≤ b.date) :=
  ⟨fun _ _ _ => Nat.le_trans⟩

/-- All frames of a group list, in group order (`push`ing each group's
array into a pool, as the analyzer does for sparse dates). -/
def groupsFlatten (gs : List (Nat × List Frame)) : List Frame :=
  gs.foldr (fun g acc => g.2 ++ acc) []

/-- The array a JavaScript `Map` of arrays holds under key `k`: the value
of the first (and, for maps built by `insertGrouped`, only) entry with
that key. -/
def keyBucket (k : Nat) (gs : List (Nat × List Frame)) : List Frame :=
  match gs.find? (fun g => g.1 = k) with
  | some g => g.2
  | none => []

/-- All frames of the `dailyVideos` entries, in entry order. -/
def dailyFrames (es : List DailyVideoEntry) : List Frame :=
  es.foldr (fun e acc => e.snapshots ++ acc) []

/-- All frames of the `timeGroups` entries, in entry order. -/
def timeGroupFrames (es : List TimeGroupEntry) : List Frame :=
  es.foldr (fun e acc => e.snapshots ++ acc) []

/-- `analyzeSnapshotDistribution`: group the well-formed snapshots of the
directory listing by date (in listing order); a date with more than 2
frames becomes a `dailyVideos` entry with its frames sorted by
time-of-day; the frames of the remaining dates are pooled, re-grouped by
time-of-day, each group sorted by date, and the groups sorted by
time-of-day. -/
def analyzeSnapshotDistribution (snapshots : List Frame) :
    List DailyVideoEntry × List TimeGroupEntry :=
  let byDate := groupByKey (fun f => f.date) snapshots
  let dailyVideos :=
    (byDate.filter (fun g => 2 < g.2.length)).map
      (fun g => DailyVideoEntry.mk g.1
        (g.2.insertionSort (fun a b => a.time ≤ b.time)))
  let timeBasedSnapshots :=
    groupsFlatten (byDate.filter (fun g => !(2 < g.2.length : Bool)))
  let timeGroups :=
    ((groupByKey (fun f => f.time) timeBasedSnapshots).map
      (fun g => TimeGroupEntry.mk g.1
        (g.2.insertionSort (fun a b => a.date ≤ b.date)))).insertionSort
      (fun a b => a.time ≤ b.time)
  (dailyVideos, timeGroups)

/-- The `latestSnapshotMtime` accumulation of `generateDailyVideo`:
starting from 0, keep the largest constituent-frame modification time. -/
def latestSnapshotMtime (frameMtimes : List Nat) : Nat :=
  frameMtimes.foldl (fun latest m => if latest < m then m else latest) 0

/-- The cache check of `generateDailyVideo`: reuse the artifact iff it
exists (`fs.stat` succeeded, `videoMtime = some v`) and its modification
time is strictly greater than every constituent frame's. -/
def useCachedDailyVideo (videoMtime : Option Nat) (frameMtimes : List Nat) : Bool :=
  match videoMtime with
  | none => false
  | some v => latestSnapshotMtime frameMtimes < v

/-- `concatenateDailyVideos` writes `concat-list.txt` with one
`file '<date>.mp4'` line per entry of the `dailyVideos` array, in array
order; this is the order in which ffmpeg stream-copies the artifacts. -/
def concatenationOrder (dailyVideos : List DailyVideoEntry) : List Nat :=
  dailyVideos.map (fun dv => dv.date)

/-- Directory listing in which the later date's snapshots are enumerated
before the earlier date's (POSIX `readdir` guarantees no order); both
dates carry three well-formed frames. -/
def listingLaterDateFirst : List Frame :=
  [⟨20240102, 1200⟩, ⟨20240102, 1205⟩, ⟨20240102, 1210⟩,
   ⟨20240101, 1200⟩, ⟨20240101, 1205⟩, ⟨20240101, 1210⟩]

/-! ## Per-camera loop of `main` (capture-and-timelapse.js) -/

/-- What matters about one configured camera for the control flow of
`main`: whether it has an `id` (a camera without one makes
`fetchMissingSnapshots` call `process.exit(1)`), and whether processing
it throws an `Error` (fatal backfill abort or encoding failure), which
`main` catches per camera. -/
structure CameraSpec where
  hasId : Bool
  throwsDuringProcessing : Bool
deriving DecidableEq, Repr

inductive CameraOutcome
  | ok
  | err
  | exitProcess
deriving DecidableEq, Repr

/-- Outcome of one iteration of the camera loop: missing credentials or a
missing camera id hit a `process.exit(1)` inside `fetchMissingSnapshots`;
a thrown `Error` is caught by `main` and recorded; otherwise success. -/
def processCamera (passwordPresent : Bool) (cam : CameraSpec) : CameraOutcome :=
  if passwordPresent = false then .exitProcess
  else if cam.hasId = false then .exitProcess
  else if cam.throwsDuringProcessing then .err
  else .ok

structure MainResult where
  attemptedCount : Nat
  failedCount : Nat
  exitCode : Nat
  abortedEarly : Bool
deriving DecidableEq, Repr

/-- The `for (let i = 0; i < cameras.length; i++)` loop of `main`:
a `process.exit(1)` terminates the whole run immediately; a caught error
is counted and the loop continues; at the end the process exits 1 iff at
least one camera failed, else 0. -/
def mainLoop (passwordPresent : Bool) :
    List CameraSpec → Nat → Nat → MainResult
  | [], attempted, failed =>
      ⟨attempted, failed, if 0 < failed then 1 else 0, false⟩
  | cam :: rest, attempted, failed =>
      match processCamera passwordPresent cam with
      | .exitProcess => ⟨attempted + 1, failed, 1, true⟩
      | .err => mainLoop passwordPresent rest (attempted + 1) (failed + 1)
      | .ok => mainLoop passwordPresent rest (attempted + 1) failed

/-- A full run of `main` over the configured cameras. -/
def runMain (passwordPresent : Bool) (cams : List CameraSpec) : MainResult :=
  mainLoop passwordPresent cams 0 0

/-! ## Walker lemmas -/

/-- Safety of the walking loop: with fuel past the hard ceiling the loop
never runs out of fuel, the final `dayOffset` stays at or below 365, and
every processed day offset is strictly below 365. -/
theorem walkFrom_safety (env : Nat → List SlotSpec)
    (maxDays maxNoData : Option Nat) :
    ∀ fuel d c p, d ≤ HARD_LIMIT_DAYS → HARD_LIMIT_DAYS < d + fuel →
      (∀ x ∈ p, x < HARD_LIMIT_DAYS) →
      (walkFrom env maxDays maxNoData fuel d c p).exit ≠ WalkExit.fuelOut
        ∧ (walkFrom env maxDays maxNoData fuel d c p).finalOffset ≤ HARD_LIMIT_DAYS
        ∧ ∀ x ∈ (walkFrom env maxDays maxNoData fuel d c p).processedDays,
            x < HARD_LIMIT_DAYS := by
  intro fuel
  induction fuel with
  | zero =>
      intro d c p hd hlt _
      omega
  | succ n ih =>
      intro d c p hd hlt hp
      rw [walkFrom]
      split
      · exact ⟨by simp, hd, hp⟩
      · split
        · exact ⟨by simp, hd, hp⟩
        · rename_i hceil
          have hdlt : d < HARD_LIMIT_DAYS := by omega
          have hp1 : ∀ x ∈ p ++ [d], x < HARD_LIMIT_DAYS := by
            intro x hx
            rcases List.mem_append.mp hx with h | h
            · exact hp x h
            · simp at h; omega
          have hdle : d ≤ HARD_LIMIT_DAYS := le_of_lt hdlt
          split
          · exact ih (d + 1) c p (by omega) (by omega) hp
          · split
            · exact ⟨by simp, hdle, hp1⟩
            · split
              · exact ih (d + 1) _ _ (by omega) (by omega) hp1
              · split
                · exact ⟨by simp, hdle, hp1⟩
                · split
                  · exact ⟨by simp, hdle, hp1⟩
                  · split
                    · exact ⟨by simp, hdle, hp1⟩
                    · exact ih (d + 1) _ _ (by omega) (by omega) hp1

/-- One loop iteration whose day holds a single failing, non-fatal
archive attempt: the counters take the classified update and the loop
either stops (evaluating the three stop conditions in source order) or
walks one day further. -/
theorem walkFrom_oneFailSlot_step (env : Nat → List SlotSpec)
    (maxDays maxNoData : Option Nat) (fuel d : Nat) (c : BackfillCounters)
    (p : List Nat) (m : ErrMsg)
    (henv : env d = [SlotSpec.attempt (some m)])
    (hfatal : isFatalMsg m = false)
    (hmd : maxDaysHit maxDays d = false)
    (hd : d < HARD_LIMIT_DAYS) :
    walkFrom env maxDays maxNoData (fuel + 1) d c p =
      (fun c1 : BackfillCounters =>
        if 3 ≤ c1.notFound then ⟨c1, p ++ [d], d, WalkExit.notFoundStop⟩
        else if noDataLimitHit maxNoData c1 then ⟨c1, p ++ [d], d, WalkExit.noDataStop⟩
        else if 3 ≤ c1.failures then ⟨c1, p ++ [d], d, WalkExit.failuresStop⟩
        else walkFrom env maxDays maxNoData fuel (d + 1) c1 (p ++ [d]))
      { c with attempts := c.attempts + 1, failed := c.failed + 1,
               failures := c.failures + 1,
               noData := if looksLikeNoData m then c.noData + 1 else 0,
               notFound := if looksLikeNotFound m then c.notFound + 1 else 0 } := by
  rw [walkFrom]
  rw [henv]
  simp only [hmd, Bool.false_eq_true, if_false, Nat.not_le.mpr hd, if_neg,
    processSlots, hfatal]

/-- Processing a day whose slots are existing files up to a fatal archive
failure: the fatal error aborts with exactly one new attempt recorded. -/
theorem processSlots_fatal (pre : List SlotSpec) :
    ∀ (rest : List SlotSpec) (c : BackfillCounters) (had : Bool) (m : ErrMsg),
      (∀ s ∈ pre, s = SlotSpec.existing) → isFatalMsg m = true →
      processSlots (pre ++ SlotSpec.attempt (some m) :: rest) c had =
        DayOutcome.fatal
          { c with skipped := c.skipped + pre.length,
                   attempts := c.attempts + 1, failed := c.failed + 1 } m := by
  induction pre with
  | nil =>
      intro rest c had m _ hm
      simp [processSlots, hm]
  | cons s pre ih =>
      intro rest c had m hpre hm
      have hs : s = SlotSpec.existing := hpre s (by simp)
      subst hs
      rw [List.cons_append]
      rw [processSlots]
      rw [ih rest _ true m (fun x hx => hpre x (by simp [hx])) hm]
      simp [Nat.add_assoc, Nat.add_comm 1 pre.length]

/-- `maxDaysHit` is false for offsets below a configured bound. -/
theorem maxDaysHit_false_of_lt (maxDays : Option Nat) (d : Nat)
    (h : ∀ k, maxDays = some k → d < k) : maxDaysHit maxDays d = false := by
  cases maxDays with
  | none => rfl
  | some k =>
      have := h k rfl
      simp [maxDaysHit]
      omega

/-- `noDataLimitHit` is false while the counter is below a configured
limit. -/
theorem noDataLimitHit_false_of_lt (maxNoData : Option Nat)
    (c : BackfillCounters) (h : ∀ k, maxNoData = some k → c.noData < k) :
    noDataLimitHit maxNoData c = false := by
  cases maxNoData with
  | none => rfl
  | some k =>
      have := h k rfl
      simp [noDataLimitHit]
      omega

/-! ## Claim theorems: backfill stop and abort laws -/

/-- C1 counterexample: against the simulated archive whose every request
fails with a timeout (a NoData-class error that is not an explicit
not-found), with `stopAfterConsecutiveNoData = 7` and no `maxDays` bound,
the walker scans exactly 3 days — not 7 — because the
three-consecutive-failures guard fires first. -/
theorem backfill_noData_counterexample :
    (runBackfill envAlwaysNoData none (some 7)).processedDays.length = 3
      ∧ (runBackfill envAlwaysNoData none (some 7)).processedDays.length ≠ 7
      ∧ (runBackfill envAlwaysNoData none (some 7)).exit = WalkExit.failuresStop := by
  decide

/-- C1 (amended): for every simulated archive answering the single daily
slot with a NoData-class error that is neither fatal nor an explicit
not-found, with `stopAfterConsecutiveNoData = 7` and any `maxDays` of at
least 3, the walker scans exactly the 3 days `[0, 1, 2]` and stops via
the consecutive-failures guard. -/
theorem backfill_noData_stops_after_three_days (env : Nat → List SlotSpec)
    (msg : Nat → ErrMsg)
    (henv : ∀ d, env d = [SlotSpec.attempt (some (msg d))])
    (hclass : ∀ d, isFatalMsg (msg d) = false ∧ looksLikeNoData (msg d) = true
        ∧ looksLikeNotFound (msg d) = false)
    (maxDays : Option Nat) (hmd : ∀ k, maxDays = some k → 3 ≤ k) :
    (runBackfill env maxDays (some 7)).processedDays = [0, 1, 2]
      ∧ (runBackfill env maxDays (some 7)).exit = WalkExit.failuresStop := by
  have hm : ∀ d, d < 3 → maxDaysHit maxDays d = false := fun d hd =>
    maxDaysHit_false_of_lt maxDays d (fun k hk => by have := hmd k hk; omega)
  rw [runBackfill]
  rw [walkFrom_oneFailSlot_step env maxDays (some 7) HARD_LIMIT_DAYS 0
    initCounters [] (msg 0) (henv 0) (hclass 0).1 (hm 0 (by omega)) (by decide)]
  simp only [(hclass 0).2.1, (hclass 0).2.2, if_true, if_false, initCounters]
  norm_num [noDataLimitHit]
  rw [show HARD_LIMIT_DAYS = 364 + 1 from rfl]
  rw [walkFrom_oneFailSlot_step env maxDays (some 7) 364 1 _ [0] (msg 1)
    (henv 1) (hclass 1).1 (hm 1 (by omega)) (by decide)]
  simp only [(hclass 1).2.1, (hclass 1).2.2, if_true, if_false]
  norm_num [noDataLimitHit]
  rw [show (364 : Nat) = 363 + 1 from rfl]
  rw [walkFrom_oneFailSlot_step env maxDays (some 7) 363 2 _ [0, 1] (msg 2)
    (henv 2) (hclass 2).1 (hm 2 (by omega)) (by decide)]
  simp only [(hclass 2).2.1, (hclass 2).2.2, if_true, if_false]
  norm_num [noDataLimitHit]

/-- Witness for the amended C1: the concrete always-timeout archive. -/
theorem backfill_noData_stops_after_three_days_witness :
    (runBackfill envAlwaysNoData none (some 7)).processedDays = [0, 1, 2]
      ∧ (runBackfill envAlwaysNoData none (some 7)).exit = WalkExit.failuresStop :=
  backfill_noData_stops_after_three_days envAlwaysNoData (fun _ => ErrMsg.timedOut)
    (fun _ => rfl) (fun _ => ⟨rfl, rfl, rfl⟩) none (fun k hk => by cases hk)

/-- C2 counterexample: a schedule with three slots per day against the
always-404 archive accumulates three consecutive not-found responses
within the first day, so the walker stops after exactly 1 day scanned,
not 3. -/
theorem backfill_notFound_counterexample :
    (runBackfill envThreeNotFoundSlots none (some 7)).processedDays.length = 1
      ∧ (runBackfill envThreeNotFoundSlots none (some 7)).processedDays.length ≠ 3
      ∧ (runBackfill envThreeNotFoundSlots none (some 7)).exit = WalkExit.notFoundStop := by
  decide

/-- C2 (amended): for every simulated archive answering the single daily
slot with an explicit NotFound-class error (which the source also counts
as NoData), with any `maxDays` of at least 3 and any configured no-data
limit of at least 3 (the default is 7), the walker stops after scanning
exactly the 3 days `[0, 1, 2]`, via the consecutive-not-found guard. -/
theorem backfill_notFound_stops_after_three_days (env : Nat → List SlotSpec)
    (msg : Nat → ErrMsg)
    (henv : ∀ d, env d = [SlotSpec.attempt (some (msg d))])
    (hclass : ∀ d, isFatalMsg (msg d) = false ∧ looksLikeNoData (msg d) = true
        ∧ looksLikeNotFound (msg d) = true)
    (maxDays : Option Nat) (hmd : ∀ k, maxDays = some k → 3 ≤ k)
    (maxNoData : Option Nat) (hmnd : ∀ k, maxNoData = some k → 3 ≤ k) :
    (runBackfill env maxDays maxNoData).processedDays = [0, 1, 2]
      ∧ (runBackfill env maxDays maxNoData).exit = WalkExit.notFoundStop := by
  have hm : ∀ d, d < 3 → maxDaysHit maxDays d = false := fun d hd =>
    maxDaysHit_false_of_lt maxDays d (fun k hk => by have := hmd k hk; omega)
  rw [runBackfill]
  rw [walkFrom_oneFailSlot_step env maxDays maxNoData HARD_LIMIT_DAYS 0
    initCounters [] (msg 0) (henv 0) (hclass 0).1 (hm 0 (by omega)) (by decide)]
  simp only [(hclass 0).2.1, (hclass 0).2.2, if_true, initCounters]
  rw [noDataLimitHit_false_of_lt maxNoData _
    (fun k hk => by have := hmnd k hk; simp; omega)]
  norm_num
  rw [show HARD_LIMIT_DAYS = 364 + 1 from rfl]
  rw [walkFrom_oneFailSlot_step env maxDays maxNoData 364 1 _ [0] (msg 1)
    (henv 1) (hclass 1).1 (hm 1 (by omega)) (by decide)]
  simp only [(hclass 1).2.1, (hclass 1).2.2, if_true]
  rw [noDataLimitHit_false_of_lt maxNoData _
    (fun k hk => by have := hmnd k hk; simp; omega)]
  norm_num
  rw [show (364 : Nat) = 363 + 1 from rfl]
  rw [walkFrom_oneFailSlot_step env maxDays maxNoData 363 2 _ [0, 1] (msg 2)
    (henv 2) (hclass 2).1 (hm 2 (by omega)) (by decide)]
  simp only [(hclass 2).2.1, (hclass 2).2.2, if_true]
  norm_num

/-- Witness for the amended C2: the concrete always-404 archive with the
default no-data limit of 7. -/
theorem backfill_notFound_stops_after_three_days_witness :
    (runBackfill envAlwaysNotFound none (some 7)).processedDays = [0, 1, 2]
      ∧ (runBackfill envAlwaysNotFound none (some 7)).exit = WalkExit.notFoundStop :=
  backfill_notFound_stops_after_three_days envAlwaysNotFound
    (fun _ => ErrMsg.http404) (fun _ => rfl) (fun _ => ⟨rfl, rfl, rfl⟩)
    none (fun k hk => by cases hk) (some 7) (fun k hk => by cases hk; omega)

/-- C3: if the very first archive request of the run — the first
non-existing slot of day 0, possibly after already-present frames — fails
with a Fatal-class error, the walker performs exactly one archive
attempt, captures nothing, and aborts the whole backfill for the camera,
for every configured `maxDays` that permits the walk to start at all. -/
theorem backfill_fatal_first_request_aborts (env : Nat → List SlotSpec)
    (pre rest : List SlotSpec) (m : ErrMsg) (maxDays maxNoData : Option Nat)
    (henv : env 0 = pre ++ SlotSpec.attempt (some m) :: rest)
    (hpre : ∀ s ∈ pre, s = SlotSpec.existing)
    (hm : isFatalMsg m = true)
    (hmd : ∀ k, maxDays = some k → 1 ≤ k) :
    (runBackfill env maxDays maxNoData).exit = WalkExit.fatal m
      ∧ (runBackfill env maxDays maxNoData).counters.attempts = 1
      ∧ (runBackfill env maxDays maxNoData).counters.captured = 0
      ∧ (runBackfill env maxDays maxNoData).processedDays = [0] := by
  have hm0 : maxDaysHit maxDays 0 = false :=
    maxDaysHit_false_of_lt maxDays 0 (fun k hk => by have := hmd k hk; omega)
  rw [runBackfill]
  rw [walkFrom]
  rw [hm0]
  have hfatal := processSlots_fatal pre rest initCounters false m hpre hm
  cases hp : pre with
  | nil =>
      rw [hp] at henv hfatal
      rw [henv]
      simp only [List.nil_append] at hfatal ⊢
      rw [hfatal]
      exact ⟨rfl, rfl, rfl, rfl⟩
  | cons s₀ pre₀ =>
      rw [hp] at henv hfatal
      rw [henv]
      simp only [List.cons_append] at hfatal ⊢
      rw [hfatal]
      exact ⟨rfl, rfl, rfl, rfl⟩

/-- Witness for C3: one existing frame followed by an unauthorized
response, with `maxDays = 400` far above the single attempt made. -/
theorem backfill_fatal_first_request_aborts_witness :
    (runBackfill (fun _ => [SlotSpec.existing, SlotSpec.attempt (some ErrMsg.unauthorized)])
        (some 400) (some 7)).exit = WalkExit.fatal ErrMsg.unauthorized
      ∧ (runBackfill (fun _ => [SlotSpec.existing, SlotSpec.attempt (some ErrMsg.unauthorized)])
          (some 400) (some 7)).counters.attempts = 1
      ∧ (runBackfill (fun _ => [SlotSpec.existing, SlotSpec.attempt (some ErrMsg.unauthorized)])
          (some 400) (some 7)).counters.captured = 0
      ∧ (runBackfill (fun _ => [SlotSpec.existing, SlotSpec.attempt (some ErrMsg.unauthorized)])
          (some 400) (some 7)).processedDays = [0] :=
  backfill_fatal_first_request_aborts _ [SlotSpec.existing] [] ErrMsg.unauthorized
    (some 400) (some 7) rfl (fun s hs => by simpa using hs) rfl
    (fun k hk => by cases hk; omega)

/-- C4: for every environment and configuration — including an unbounded
or over-365 `maxDays` — the walker never processes a day offset of 365 or
more, terminates with a final offset of at most 365, and does so by an
actual stop condition, never by exhausting the modelling fuel. -/
theorem backfill_hard_ceiling (env : Nat → List SlotSpec)
    (maxDays maxNoData : Option Nat) :
    (∀ x ∈ (runBackfill env maxDays maxNoData).processedDays, x < HARD_LIMIT_DAYS)
      ∧ (runBackfill env maxDays maxNoData).finalOffset ≤ HARD_LIMIT_DAYS
      ∧ (runBackfill env maxDays maxNoData).exit ≠ WalkExit.fuelOut := by
  have h := walkFrom_safety env maxDays maxNoData (HARD_LIMIT_DAYS + 1) 0
    initCounters [] (by omega) (by omega) (by simp)
  exact ⟨h.2.2, h.2.1, h.1⟩

/-! ## Claim theorems: daily-video cache -/

/-- The running maximum of `generateDailyVideo` is bounded by any bound
on its start value and its inputs. -/
theorem foldlMax_le (ms : List Nat) :
    ∀ a v : Nat, a ≤ v → (∀ m ∈ ms, m ≤ v) →
      ms.foldl (fun latest m => if latest < m then m else latest) a ≤ v := by
  induction ms with
  | nil => intro a v ha _; simpa using ha
  | cons x xs ih =>
      intro a v ha h
      rw [List.foldl_cons]
      by_cases hx : a < x
      · simp only [hx, if_true]
        exact ih x v (h x (by simp)) (fun m hm => h m (by simp [hm]))
      · simp only [hx, if_false]
        exact ih a v ha (fun m hm => h m (by simp [hm]))

/-- The start value is at most the running maximum. -/
theorem foldlMax_start_le (ms : List Nat) :
    ∀ a : Nat, a ≤ ms.foldl (fun latest x => if latest < x then x else latest) a := by
  induction ms with
  | nil => intro a; simp
  | cons x xs ih =>
      intro a
      rw [List.foldl_cons]
      by_cases hx : a < x
      · simp only [hx, if_true]
        exact le_trans (le_of_lt hx) (ih x)
      · simp only [hx, if_false]
        exact ih a

/-- Every input is at most the running maximum. -/
theorem le_foldlMax (ms : List Nat) :
    ∀ a : Nat, ∀ m ∈ ms,
      m ≤ ms.foldl (fun latest x => if latest < x then x else latest) a := by
  induction ms with
  | nil => intro a m hm; simp at hm
  | cons x xs ih =>
      intro a m hm
      rw [List.foldl_cons]
      rcases List.mem_cons.mp hm with rfl | hm'
      · by_cases hx : a < m
        · simp only [hx, if_true]
          exact foldlMax_start_le xs m
        · simp only [hx, if_false]
          exact le_trans (Nat.not_lt.mp hx) (foldlMax_start_le xs a)
      · exact ih _ m hm'

/-- C5: the cache check of `generateDailyVideo` reuses an existing daily
video exactly when its modification time is strictly newer than that of
every constituent frame; equivalently, a frame rewritten at or after the
artifact's mtime forces a rebuild. -/
theorem dailyVideo_cache_law (v : Nat) (ms : List Nat) (hne : ms ≠ []) :
    (useCachedDailyVideo (some v) ms = true ↔ ∀ m ∈ ms, m < v)
      ∧ (∀ m ∈ ms, v ≤ m → useCachedDailyVideo (some v) ms = false) := by
  constructor
  · constructor
    · intro hc m hm
      have hlat : latestSnapshotMtime ms < v := by
        simpa [useCachedDailyVideo, decide_eq_true_eq] using hc
      have := le_foldlMax ms 0 m hm
      calc m ≤ latestSnapshotMtime ms := this
           _ < v := hlat
    · intro hall
      rcases List.exists_mem_of_ne_nil ms hne with ⟨m₀, hm₀⟩
      have hv1 : 1 ≤ v := by have := hall m₀ hm₀; omega
      have : latestSnapshotMtime ms ≤ v - 1 :=
        foldlMax_le ms 0 (v - 1) (by omega)
          (fun m hm => by have := hall m hm; omega)
      simp only [useCachedDailyVideo, decide_eq_true_eq]
      omega
  · intro m hm hvm
    simp only [useCachedDailyVideo, decide_eq_false_iff_not, Nat.not_lt]
    have := le_foldlMax ms 0 m hm
    calc v ≤ m := hvm
         _ ≤ latestSnapshotMtime ms := this

/-- Witness for C5 at a concrete artifact and frame set. -/
theorem dailyVideo_cache_law_witness :
    (useCachedDailyVideo (some 10) [3, 5, 7] = true ↔ ∀ m ∈ [3, 5, 7], m < 10)
      ∧ (∀ m ∈ [3, 5, 7], 10 ≤ m → useCachedDailyVideo (some 10) [3, 5, 7] = false) :=
  dailyVideo_cache_law 10 [3, 5, 7] (by simp)

/-! ## Claim theorems: interval slot generation -/

set_option maxRecDepth 8000

theorem bitLenAux_zero : ∀ fuel, bitLenAux fuel 0 = 0 := by
  intro fuel
  cases fuel <;> simp [bitLenAux]

theorem bitLenAux_spec : ∀ fuel n, n < 2 ^ fuel → 1 ≤ n →
    2 ^ (bitLenAux fuel n - 1) ≤ n ∧ n < 2 ^ bitLenAux fuel n := by
  intro fuel
  induction fuel with
  | zero =>
      intro n h h1
      simp at h
      omega
  | succ f ih =>
      intro n h h1
      rw [bitLenAux]
      rw [if_neg (by omega : ¬ n = 0)]
      by_cases h2 : n / 2 = 0
      · have hn1 : n = 1 := by omega
        subst hn1
        norm_num
        rw [bitLenAux_zero]
        norm_num
      · have hlt : n / 2 < 2 ^ f := by
          rw [pow_succ] at h
          omega
        obtain ⟨hl, hu⟩ := ih (n / 2) hlt (by omega)
        have hL1 : 1 ≤ bitLenAux f (n / 2) := by
          by_contra hc
          have hz : bitLenAux f (n / 2) = 0 := by omega
          rw [hz] at hu
          simp at hu
          omega
        constructor
        · have e1 : 2 ^ (bitLenAux f (n / 2) + 1 - 1)
              = 2 ^ (bitLenAux f (n / 2) - 1) * 2 := by
            rw [← pow_succ]
            congr 1
            omega
          rw [e1]
          omega
        · have e2 : 2 ^ (bitLenAux f (n / 2) + 1)
              = 2 ^ bitLenAux f (n / 2) * 2 := by
            rw [pow_succ]
          rw [e2]
          omega

theorem flScaledN_exact (a : Nat) (ha : a < 2 ^ 105) (hdvd : 2 ^ 52 ∣ a) :
    flScaledN a = a := by
  rw [flScaledN]
  by_cases hL : bitLen a ≤ 53
  · simp [hL]
  · simp only [hL, if_false]
    have ha1 : 1 ≤ a := by
      by_contra hc
      have hz : a = 0 := by omega
      subst hz
      rw [bitLen, bitLenAux_zero] at hL
      omega
    have hspec := bitLenAux_spec 200 a (lt_trans ha (by norm_num)) ha1
    have hble : bitLen a ≤ 105 := by
      by_contra hc
      have h105 : (2 : Nat) ^ 105 ≤ 2 ^ (bitLen a - 1) :=
        Nat.pow_le_pow_right (by norm_num) (by omega)
      have := le_trans h105 hspec.1
      omega
    have hdvd2 : 2 ^ (bitLen a - 53) ∣ a :=
      dvd_trans (pow_dvd_pow 2 (by omega)) hdvd
    have hpos : 0 < 2 ^ (bitLen a - 53) := pow_pos (by norm_num) _
    have hmod : a % 2 ^ (bitLen a - 53) = 0 := Nat.mod_eq_zero_of_dvd hdvd2
    simp only [roundHalfEvenDiv, hmod]
    rw [if_pos (by omega)]
    exact Nat.div_mul_cancel hdvd2

theorem two_pow_52_eq : (2 : Nat) ^ 52 = 4503599627370496 := by norm_num

theorem two_pow_53_eq : (2 : Nat) ^ 53 = 9007199254740992 := by norm_num

theorem flScaled_int_exact (m : Int) (hm : m.natAbs < 2 ^ 53) :
    flScaled (m * (msScale : Int)) = m * (msScale : Int) := by
  have hscale : (0 : Int) < (msScale : Int) := by norm_num [msScale]
  have hbound : m.natAbs * msScale < 2 ^ 105 := by
    calc m.natAbs * msScale < 2 ^ 53 * msScale :=
          mul_lt_mul_of_pos_right hm (by norm_num [msScale])
      _ = 2 ^ 105 := by norm_num [msScale]
  have hdvd : (2 : Nat) ^ 52 ∣ m.natAbs * msScale := ⟨m.natAbs, by rw [msScale]; ring⟩
  have hN := flScaledN_exact (m.natAbs * msScale) hbound hdvd
  rw [flScaled]
  by_cases hs : 0 ≤ m * (msScale : Int)
  · rw [if_pos hs]
    have hm0 : 0 ≤ m := by
      by_contra hc
      push_neg at hc
      exact absurd hs (not_le.mpr (mul_neg_of_neg_of_pos hc hscale))
    have hcast : ((m.natAbs : Nat) : Int) = m := Int.natAbs_of_nonneg hm0
    have ht2 : (m * (msScale : Int)).toNat = m.natAbs * msScale := by
      have h3 : ((m * (msScale : Int)).toNat : Int) = ((m.natAbs * msScale : Nat) : Int) := by
        rw [Int.toNat_of_nonneg hs]
        rw [Nat.cast_mul, hcast]
      exact_mod_cast h3
    rw [ht2, hN]
    rw [Nat.cast_mul, hcast]
  · rw [if_neg hs]
    have hneg : m * (msScale : Int) < 0 := not_le.mp hs
    have hm0 : m < 0 := by
      by_contra hc
      push_neg at hc
      exact absurd (mul_nonneg hc (le_of_lt hscale)) (not_le.mpr hneg)
    have hcast : ((m.natAbs : Nat) : Int) = -m := by
      rw [← Int.natAbs_neg m]
      exact Int.natAbs_of_nonneg (by omega)
    have ht2 : (-(m * (msScale : Int))).toNat = m.natAbs * msScale := by
      have h1 : (0 : Int) ≤ -(m * (msScale : Int)) := by linarith
      have h3 : ((-(m * (msScale : Int))).toNat : Int) = ((m.natAbs * msScale : Nat) : Int) := by
        rw [Int.toNat_of_nonneg h1]
        rw [Nat.cast_mul, hcast]
        ring
      exact_mod_cast h3
    rw [ht2, hN]
    rw [Nat.cast_mul, hcast]
    ring

theorem flDivScaled_divisor (s : Nat) (h1 : 1 ≤ s) (hdvd : s ∣ 60) :
    flDivScaled 60 s = 60 / s * msScale := by
  have hs60 : s ≤ 60 := Nat.le_of_dvd (by norm_num) hdvd
  interval_cases s <;> first | exact absurd hdvd (by decide) | decide

theorem ecmaAddMinutes_exact (k t : Nat) (hk : k ≤ 60) (ht : t < 2 ^ 52) :
    ecmaAddMinutes 0 ((k : Int) * (msScale : Int)) t = t + 60000 * k := by
  rw [two_pow_52_eq] at ht
  have hmi : t / 60000 % 60 < 60 := Nat.mod_lt _ (by norm_num)
  have hh : t / 3600000 % 24 < 24 := Nat.mod_lt _ (by norm_num)
  have hsec : t / 1000 % 60 < 60 := Nat.mod_lt _ (by norm_num)
  have hms : t % 1000 < 1000 := Nat.mod_lt _ (by norm_num)
  have hday : t / 86400000 * 86400000 ≤ t := Nat.div_mul_le_self t 86400000
  simp only [ecmaAddMinutes]
  have e1 : flScaled ((((t / 60000 % 60 : Nat) : Int) + 0) * (msScale : Int)
        + ((k : Nat) : Int) * (msScale : Int))
      = ((t / 60000 % 60 + k : Nat) : Int) * (msScale : Int) := by
    have harg : (((t / 60000 % 60 : Nat) : Int) + 0) * (msScale : Int)
          + ((k : Nat) : Int) * (msScale : Int)
        = ((t / 60000 % 60 + k : Nat) : Int) * (msScale : Int) := by
      push_cast
      ring
    rw [harg]
    refine flScaled_int_exact _ ?_
    rw [Int.natAbs_ofNat, two_pow_53_eq]
    omega
  rw [e1]
  have e2 : flScaled ((t / 3600000 % 24 * 3600000 * msScale : Nat) : Int)
      = ((t / 3600000 % 24 * 3600000 : Nat) : Int) * (msScale : Int) := by
    rw [Nat.cast_mul]
    refine flScaled_int_exact _ ?_
    rw [Int.natAbs_ofNat, two_pow_53_eq]
    omega
  rw [e2]
  have e3 : flScaled (((t / 60000 % 60 + k : Nat) : Int) * (msScale : Int) * 60000)
      = (((t / 60000 % 60 + k) * 60000 : Nat) : Int) * (msScale : Int) := by
    have harg : ((t / 60000 % 60 + k : Nat) : Int) * (msScale : Int) * 60000
        = (((t / 60000 % 60 + k) * 60000 : Nat) : Int) * (msScale : Int) := by
      push_cast
      ring
    rw [harg]
    refine flScaled_int_exact _ ?_
    rw [Int.natAbs_ofNat, two_pow_53_eq]
    omega
  rw [e3]
  have e4 : flScaled ((t / 1000 % 60 * 1000 * msScale : Nat) : Int)
      = ((t / 1000 % 60 * 1000 : Nat) : Int) * (msScale : Int) := by
    rw [Nat.cast_mul]
    refine flScaled_int_exact _ ?_
    rw [Int.natAbs_ofNat, two_pow_53_eq]
    omega
  rw [e4]
  have e5 : flScaled (((t / 3600000 % 24 * 3600000 : Nat) : Int) * (msScale : Int)
        + (((t / 60000 % 60 + k) * 60000 : Nat) : Int) * (msScale : Int))
      = ((t / 3600000 % 24 * 3600000 + (t / 60000 % 60 + k) * 60000 : Nat) : Int)
          * (msScale : Int) := by
    have harg : ((t / 3600000 % 24 * 3600000 : Nat) : Int) * (msScale : Int)
          + (((t / 60000 % 60 + k) * 60000 : Nat) : Int) * (msScale : Int)
        = ((t / 3600000 % 24 * 3600000 + (t / 60000 % 60 + k) * 60000 : Nat) : Int)
            * (msScale : Int) := by
      push_cast
      ring
    rw [harg]
    refine flScaled_int_exact _ ?_
    rw [Int.natAbs_ofNat, two_pow_53_eq]
    omega
  rw [e5]
  have e6 : flScaled (((t / 3600000 % 24 * 3600000 + (t / 60000 % 60 + k) * 60000 : Nat) : Int)
          * (msScale : Int)
        + ((t / 1000 % 60 * 1000 : Nat) : Int) * (msScale : Int))
      = ((t / 3600000 % 24 * 3600000 + (t / 60000 % 60 + k) * 60000
            + t / 1000 % 60 * 1000 : Nat) : Int) * (msScale : Int) := by
    have harg : ((t / 3600000 % 24 * 3600000 + (t / 60000 % 60 + k) * 60000 : Nat) : Int)
            * (msScale : Int)
          + ((t / 1000 % 60 * 1000 : Nat) : Int) * (msScale : Int)
        = ((t / 3600000 % 24 * 3600000 + (t / 60000 % 60 + k) * 60000
              + t / 1000 % 60 * 1000 : Nat) : Int) * (msScale : Int) := by
      push_cast
      ring
    rw [harg]
    refine flScaled_int_exact _ ?_
    rw [Int.natAbs_ofNat, two_pow_53_eq]
    omega
  rw [e6]
  have e7 : flScaled (((t / 3600000 % 24 * 3600000 + (t / 60000 % 60 + k) * 60000
            + t / 1000 % 60 * 1000 : Nat) : Int) * (msScale : Int)
        + ((t % 1000 * msScale : Nat) : Int))
      = ((t / 3600000 % 24 * 3600000 + (t / 60000 % 60 + k) * 60000
            + t / 1000 % 60 * 1000 + t % 1000 : Nat) : Int) * (msScale : Int) := by
    have harg : ((t / 3600000 % 24 * 3600000 + (t / 60000 % 60 + k) * 60000
              + t / 1000 % 60 * 1000 : Nat) : Int) * (msScale : Int)
          + ((t % 1000 * msScale : Nat) : Int)
        = ((t / 3600000 % 24 * 3600000 + (t / 60000 % 60 + k) * 60000
              + t / 1000 % 60 * 1000 + t % 1000 : Nat) : Int) * (msScale : Int) := by
      push_cast
      ring
    rw [harg]
    refine flScaled_int_exact _ ?_
    rw [Int.natAbs_ofNat, two_pow_53_eq]
    omega
  rw [e7]
  have e8 : flScaled ((t / 86400000 * 86400000 * msScale : Nat) : Int)
      = ((t / 86400000 * 86400000 : Nat) : Int) * (msScale : Int) := by
    rw [Nat.cast_mul]
    refine flScaled_int_exact _ ?_
    rw [Int.natAbs_ofNat, two_pow_53_eq]
    omega
  rw [e8]
  have e9 : flScaled (((t / 86400000 * 86400000 : Nat) : Int) * (msScale : Int)
        + ((t / 3600000 % 24 * 3600000 + (t / 60000 % 60 + k) * 60000
              + t / 1000 % 60 * 1000 + t % 1000 : Nat) : Int) * (msScale : Int))
      = ((t / 86400000 * 86400000 + (t / 3600000 % 24 * 3600000
            + (t / 60000 % 60 + k) * 60000 + t / 1000 % 60 * 1000 + t % 1000) : Nat) : Int)
          * (msScale : Int) := by
    have harg : ((t / 86400000 * 86400000 : Nat) : Int) * (msScale : Int)
          + ((t / 3600000 % 24 * 3600000 + (t / 60000 % 60 + k) * 60000
                + t / 1000 % 60 * 1000 + t % 1000 : Nat) : Int) * (msScale : Int)
        = ((t / 86400000 * 86400000 + (t / 3600000 % 24 * 3600000
              + (t / 60000 % 60 + k) * 60000 + t / 1000 % 60 * 1000 + t % 1000) : Nat) : Int)
            * (msScale : Int) := by
      push_cast
      ring
    rw [harg]
    refine flScaled_int_exact _ ?_
    rw [Int.natAbs_ofNat, two_pow_53_eq]
    omega
  rw [e9]
  have hnn : (0 : Int) ≤ ((t / 86400000 * 86400000 + (t / 3600000 % 24 * 3600000
        + (t / 60000 % 60 + k) * 60000 + t / 1000 % 60 * 1000 + t % 1000) : Nat) : Int)
      * (msScale : Int) := mul_nonneg (Int.natCast_nonneg _) (Int.natCast_nonneg _)
  rw [if_pos hnn]
  rw [Int.mul_ediv_cancel _ (by norm_num [msScale] : ((msScale : Nat) : Int) ≠ 0)]
  rw [Int.toNat_ofNat]
  omega

theorem intervalLoopLE_head?_eq (adv : Nat → Nat) (endMs fuel t : Nat) :
    (intervalLoopLE adv endMs fuel t).head? = none ∨
    (intervalLoopLE adv endMs fuel t).head? = some t := by
  cases fuel with
  | zero => left; rfl
  | succ f =>
      rw [intervalLoopLE]
      by_cases h : t ≤ endMs
      · rw [if_pos h]; right; rfl
      · rw [if_neg h]; left; rfl

theorem intervalLoopLE_le_end (adv : Nat → Nat) (endMs : Nat) :
    ∀ fuel t x, x ∈ intervalLoopLE adv endMs fuel t → x ≤ endMs := by
  intro fuel
  induction fuel with
  | zero => intro t x hx; simp [intervalLoopLE] at hx
  | succ f ih =>
      intro t x hx
      rw [intervalLoopLE] at hx
      by_cases h : t ≤ endMs
      · rw [if_pos h] at hx
        rcases List.mem_cons.mp hx with h1 | h2
        · omega
        · by_cases hadv : t < adv t
          · rw [if_pos hadv] at h2
            exact ih _ _ h2
          · rw [if_neg hadv] at h2
            simp at h2
      · rw [if_neg h] at hx
        simp at hx

theorem intervalLoopLE_chain (adv : Nat → Nat) (endMs : Nat) :
    ∀ fuel t, List.Chain' (fun a b => b = adv a) (intervalLoopLE adv endMs fuel t) := by
  intro fuel
  induction fuel with
  | zero => intro t; simp [intervalLoopLE]
  | succ f ih =>
      intro t
      rw [intervalLoopLE]
      by_cases h : t ≤ endMs
      · rw [if_pos h]
        by_cases hadv : t < adv t
        · rw [if_pos hadv]
          refine List.chain'_cons'.mpr ⟨?_, ih (adv t)⟩
          intro b hb
          rcases intervalLoopLE_head?_eq adv endMs f (adv t) with hn | hs
          · rw [hn] at hb; simp at hb
          · rw [hs] at hb
            simp at hb
            omega
        · rw [if_neg hadv]
          simp
      · rw [if_neg h]
        simp

theorem intervalLoopLE_chain_const (adv : Nat → Nat) (endMs k : Nat)
    (hadv : ∀ a, a ≤ endMs → adv a = a + 60000 * k) :
    ∀ fuel t, List.Chain' (fun a b => b = a + 60000 * k)
      (intervalLoopLE adv endMs fuel t) := by
  intro fuel
  induction fuel with
  | zero => intro t; simp [intervalLoopLE]
  | succ f ih =>
      intro t
      rw [intervalLoopLE]
      by_cases h : t ≤ endMs
      · rw [if_pos h]
        by_cases hstep : t < adv t
        · rw [if_pos hstep]
          refine List.chain'_cons'.mpr ⟨?_, ih (adv t)⟩
          intro b hb
          rcases intervalLoopLE_head?_eq adv endMs f (adv t) with hn | hs
          · rw [hn] at hb; simp at hb
          · rw [hs] at hb
            simp at hb
            rw [← hb]
            exact hadv t h
        · rw [if_neg hstep]
          simp
      · rw [if_neg h]
        simp

/-- C8 (amended): for every interval schedule with `shotsPerHour` in `[1,60]`
and a window with `startHour <= endHour`, the slot list starts at the window
start, never exceeds the window end, and each consecutive pair is related by
the ECMA-262 `setMinutes` update for `60/shotsPerHour` minutes; whenever
`shotsPerHour` divides 60 that update is exactly `60/shotsPerHour` minutes. -/
theorem interval_slots_spacing (shotsPerHour startMs endMs : Nat)
    (h1 : 1 ≤ shotsPerHour) (h60 : shotsPerHour ≤ 60)
    (hse : startMs ≤ endMs) (hrange : endMs < 2 ^ 52) :
    (generateIntervalSlots shotsPerHour startMs endMs).head? = some startMs ∧
    (∀ x ∈ generateIntervalSlots shotsPerHour startMs endMs, x ≤ endMs) ∧
    List.Chain' (fun a b => b = ecmaAddMinutes 0 (flDivScaled 60 shotsPerHour) a)
      (generateIntervalSlots shotsPerHour startMs endMs) ∧
    (shotsPerHour ∣ 60 →
      List.Chain' (fun a b => b = a + 60000 * (60 / shotsPerHour))
        (generateIntervalSlots shotsPerHour startMs endMs)) := by
  refine ⟨?_, ?_, ?_, ?_⟩
  · rw [generateIntervalSlots]
    have hf : endMs + 1 - startMs = (endMs - startMs) + 1 := by omega
    rw [hf, intervalLoopLE, if_pos hse]
    rfl
  · intro x hx
    rw [generateIntervalSlots] at hx
    exact intervalLoopLE_le_end _ _ _ _ _ hx
  · rw [generateIntervalSlots]
    exact intervalLoopLE_chain _ _ _ _
  · intro hdvd
    rw [generateIntervalSlots]
    apply intervalLoopLE_chain_const
    intro a ha
    have hdelta : ((flDivScaled 60 shotsPerHour : Nat) : Int)
        = ((60 / shotsPerHour : Nat) : Int) * (msScale : Int) := by
      rw [flDivScaled_divisor shotsPerHour h1 hdvd]
      rw [Nat.cast_mul]
    rw [hdelta]
    exact ecmaAddMinutes_exact (60 / shotsPerHour) a (Nat.div_le_self 60 shotsPerHour)
      (lt_of_le_of_lt ha hrange)

/-- C8 counterexample: with 7 shots per hour in the window 00:00 to 01:00 UTC
of 2024-01-01, the first two slots are 514285 ms apart; seven such steps make
3599995 ms, not one hour, so consecutive slots do not differ by exactly
`60/shotsPerHour` minutes. -/
theorem interval_slots_spacing_counterexample :
    (generateIntervalSlots 7 1704067200000 1704070800000).take 2
        = [1704067200000, 1704067714285] ∧
    7 * (1704067714285 - 1704067200000) ≠ 3600000 :=
  ⟨by decide, by decide⟩

/-- Witness for interval_slots_spacing at `shotsPerHour = 4`, window
10:00 to 11:00 on 1970-01-01. -/
theorem interval_slots_spacing_witness :
    (generateIntervalSlots 4 36000000 39600000).head? = some 36000000 ∧
    (∀ x ∈ generateIntervalSlots 4 36000000 39600000, x ≤ 39600000) ∧
    List.Chain' (fun a b => b = ecmaAddMinutes 0 (flDivScaled 60 4) a)
      (generateIntervalSlots 4 36000000 39600000) ∧
    (4 ∣ 60 →
      List.Chain' (fun a b => b = a + 60000 * (60 / 4))
        (generateIntervalSlots 4 36000000 39600000)) :=
  interval_slots_spacing 4 36000000 39600000 (by norm_num) (by norm_num)
    (by norm_num) (by norm_num)

/-! ## Claim theorems: per-camera loop -/

/-- With credentials present and every camera carrying an id, the loop
visits every camera, counts exactly the throwing ones as failed, and
never aborts the process early. -/
theorem mainLoop_characterization (cams : List CameraSpec)
    (hids : ∀ cam ∈ cams, cam.hasId = true) :
    ∀ attempted failed,
      mainLoop true cams attempted failed =
        ⟨attempted + cams.length,
         failed + cams.countP (fun c => c.throwsDuringProcessing),
         if 0 < failed + cams.countP (fun c => c.throwsDuringProcessing)
         then 1 else 0,
         false⟩ := by
  induction cams with
  | nil => intro a f; simp [mainLoop]
  | cons cam rest ih =>
      intro a f
      have hid : cam.hasId = true := hids cam (by simp)
      have ihr := ih (fun c hc => hids c (by simp [hc]))
      rw [mainLoop]
      cases hthrow : cam.throwsDuringProcessing with
      | true =>
          simp only [processCamera, hid, hthrow, Bool.true_eq_false, if_false,
            if_true]
          rw [ihr (a + 1) (f + 1)]
          simp only [List.countP_cons, hthrow]
          have h1 : a + 1 + rest.length = a + (rest.length + 1) := by omega
          have h2 : f + 1 + rest.countP (fun c => c.throwsDuringProcessing)
              = f + (rest.countP (fun c => c.throwsDuringProcessing) + 1) := by
            omega
          rw [h1, h2]
          norm_num
      | false =>
          simp only [processCamera, hid, hthrow, Bool.true_eq_false, if_false]
          rw [ihr (a + 1) f]
          simp only [List.countP_cons, hthrow]
          norm_num
          omega

/-- C9 counterexample: with two cameras configured, the first lacking an
`id`, `fetchMissingSnapshots` calls `process.exit(1)` and the second
camera is never attempted (1 of 2), so a failure on one camera does
prevent the remaining camera. -/
theorem camera_missing_id_halts_run :
    (runMain true [⟨false, false⟩, ⟨true, false⟩]).attemptedCount = 1
      ∧ (runMain true [⟨false, false⟩, ⟨true, false⟩]).attemptedCount ≠ 2
      ∧ (runMain true [⟨false, false⟩, ⟨true, false⟩]).abortedEarly = true
      ∧ (runMain true [⟨false, false⟩, ⟨true, false⟩]).exitCode = 1 := by
  decide

/-- C9 (amended): provided the UniFi password is configured and every
camera has an id, a thrown failure while processing one camera does not
prevent the remaining cameras from being attempted, the run never aborts
early, and the exit status is non-zero iff at least one camera failed. -/
theorem camera_failures_isolated (cams : List CameraSpec)
    (hids : ∀ cam ∈ cams, cam.hasId = true) :
    (runMain true cams).attemptedCount = cams.length
      ∧ (runMain true cams).abortedEarly = false
      ∧ ((runMain true cams).exitCode ≠ 0
          ↔ ∃ cam ∈ cams, cam.throwsDuringProcessing = true) := by
  rw [runMain, mainLoop_characterization cams hids 0 0]
  refine ⟨by simp, rfl, ?_⟩
  simp only [Nat.zero_add]
  by_cases h : 0 < cams.countP (fun c => c.throwsDuringProcessing)
  · simp only [h, if_true]
    simp only [ne_eq, one_ne_zero, not_false_eq_true, true_iff]
    simpa using List.countP_pos_iff.mp h
  · simp only [h, if_false]
    simp only [ne_eq, not_true_eq_false, false_iff, not_exists]
    intro cam hc
    exact h (List.countP_pos_iff.mpr ⟨cam, hc.1, by simp [hc.2]⟩)

/-- Witness for the amended C9: two cameras with ids, the second one
failing. -/
theorem camera_failures_isolated_witness :
    (runMain true [⟨true, false⟩, ⟨true, true⟩]).attemptedCount
        = [(⟨true, false⟩ : CameraSpec), ⟨true, true⟩].length
      ∧ (runMain true [⟨true, false⟩, ⟨true, true⟩]).abortedEarly = false
      ∧ ((runMain true [⟨true, false⟩, ⟨true, true⟩]).exitCode ≠ 0
          ↔ ∃ cam ∈ [(⟨true, false⟩ : CameraSpec), ⟨true, true⟩],
              cam.throwsDuringProcessing = true) :=
  camera_failures_isolated [⟨true, false⟩, ⟨true, true⟩] (by decide)

/-! ## Claim theorems: sunrise-sunset location guard -/

/-- C10: in sunrise-sunset mode a location with `lat = 0` or `lon = 0`
(a point on the equator or the prime meridian) is rejected by the
JavaScript truthiness check `!location.lat || !location.lon` exactly as
if no location had been supplied, for every solar calculator and
schedule. -/
theorem sunrise_zero_coordinate_rejected (sun : Rat → Rat → Option SunTimes)
    (sched : Schedule) (hmode : sched.mode = ScheduleMode.sunriseSunset)
    (loc : Location) (hzero : loc.lat = 0 ∨ loc.lon = 0) :
    generateDailySlots sun sched (some loc)
        = Except.error SlotGenError.locationRequired
      ∧ generateDailySlots sun sched none
        = Except.error SlotGenError.locationRequired := by
  constructor
  · rw [generateDailySlots, hmode]
    rcases hzero with h | h
    · simp [jsTruthyNum, h]
    · by_cases hlat : loc.lat = 0
      · simp [jsTruthyNum, hlat]
      · simp [jsTruthyNum, hlat, h]
  · rw [generateDailySlots, hmode]

/-- Witness for C10: a concrete sunrise-sunset schedule and the location
`(0, 50)` on the equator. -/
theorem sunrise_zero_coordinate_rejected_witness :
    generateDailySlots (fun _ _ => none)
        ⟨ScheduleMode.sunriseSunset, [], none, ⟨0, 86340000⟩, true, true, 0, 0⟩
        (some ⟨0, 50⟩)
        = Except.error SlotGenError.locationRequired
      ∧ generateDailySlots (fun _ _ => none)
        ⟨ScheduleMode.sunriseSunset, [], none, ⟨0, 86340000⟩, true, true, 0, 0⟩
        none
        = Except.error SlotGenError.locationRequired :=
  sunrise_zero_coordinate_rejected (fun _ _ => none)
    ⟨ScheduleMode.sunriseSunset, [], none, ⟨0, 86340000⟩, true, true, 0, 0⟩
    rfl ⟨0, 50⟩ (Or.inl rfl)

/-! ## Grouping lemmas for the distribution analyzer -/

/-- Inserting a frame appends it to the bucket of its key and leaves all
other buckets unchanged. -/
theorem keyBucket_insertGrouped (key : Frame → Nat) (f : Frame) :
    ∀ (gs : List (Nat × List Frame)) (k : Nat),
      keyBucket k (insertGrouped key f gs) =
        if k = key f then keyBucket k gs ++ [f] else keyBucket k gs := by
  intro gs
  induction gs with
  | nil =>
      intro k
      by_cases hk : k = key f
      · subst hk
        simp [insertGrouped, keyBucket]
      · simp [insertGrouped, keyBucket, List.find?_cons, Ne.symm hk, hk]
  | cons g rest ih =>
      intro k
      rw [insertGrouped]
      by_cases hg : g.1 = key f
      · rw [if_pos hg]
        by_cases hk : g.1 = k
        · have hkf : k = key f := by rw [← hk, hg]
          simp [keyBucket, List.find?_cons, hk, hkf]
        · have hkf : ¬(k = key f) := fun h => hk (by rw [hg, h])
          simp [keyBucket, List.find?_cons, hk, hkf]
      · rw [if_neg hg]
        by_cases hk : g.1 = k
        · have hkf : ¬(k = key f) := fun h => hg (hk.trans h)
          simp [keyBucket, List.find?_cons, hk, hkf]
        · have := ih k
          simp only [keyBucket, List.find?_cons] at this ⊢
          simp only [hk, decide_eq_true_eq, if_false]
          simpa [hk] using this

/-- Folding frames into a group list extends each bucket by exactly the
frames with that key, in order. -/
theorem foldl_insertGrouped_bucket (key : Frame → Nat) :
    ∀ (l : List Frame) (gs : List (Nat × List Frame)) (k : Nat),
      keyBucket k (l.foldl (fun acc f => insertGrouped key f acc) gs) =
        keyBucket k gs ++ l.filter (fun f => key f = k) := by
  intro l
  induction l with
  | nil => intro gs k; simp
  | cons f rest ih =>
      intro gs k
      rw [List.foldl_cons]
      rw [ih (insertGrouped key f gs) k]
      rw [keyBucket_insertGrouped key f gs k]
      rw [List.filter_cons]
      by_cases hk : key f = k
      · simp [hk]
      · have hk' : ¬(k = key f) := fun h => hk h.symm
        simp [hk, hk']

/-- Each bucket of `groupByKey` is exactly the input frames with that
key, in input order. -/
theorem groupByKey_bucket (key : Frame → Nat) (l : List Frame) (k : Nat) :
    keyBucket k (groupByKey key l) = l.filter (fun f => key f = k) := by
  rw [groupByKey]
  rw [foldl_insertGrouped_bucket key l [] k]
  simp [keyBucket]

/-- Inserting a frame either keeps the key set or appends the new key at
the end. -/
theorem insertGrouped_keys (key : Frame → Nat) (f : Frame) :
    ∀ gs : List (Nat × List Frame),
      (insertGrouped key f gs).map Prod.fst =
        if key f ∈ gs.map Prod.fst then gs.map Prod.fst
        else gs.map Prod.fst ++ [key f] := by
  intro gs
  induction gs with
  | nil => simp [insertGrouped]
  | cons g rest ih =>
      rw [insertGrouped]
      by_cases hg : g.1 = key f
      · simp [hg]
      · rw [if_neg hg]
        have : key f ∈ (g :: rest).map Prod.fst ↔ key f ∈ rest.map Prod.fst := by
          simp [hg, Ne.symm hg]
        by_cases hmem : key f ∈ rest.map Prod.fst
        · simp only [List.map_cons, ih, hmem, if_true]
          simp [this, hmem]
        · simp only [List.map_cons, ih, hmem, if_false]
          simp [this, hmem, Ne.symm hg]

/-- The keys of `groupByKey` are pairwise distinct. -/
theorem groupByKey_keys_nodup (key : Frame → Nat) (l : List Frame) :
    ((groupByKey key l).map Prod.fst).Nodup := by
  rw [groupByKey]
  suffices h : ∀ gs : List (Nat × List Frame), (gs.map Prod.fst).Nodup →
      ((l.foldl (fun acc f => insertGrouped key f acc) gs).map Prod.fst).Nodup by
    exact h [] (by simp)
  induction l with
  | nil => intro gs hgs; simpa using hgs
  | cons f rest ih =>
      intro gs hgs
      rw [List.foldl_cons]
      refine ih (insertGrouped key f gs) ?_
      rw [insertGrouped_keys]
      by_cases hmem : key f ∈ gs.map Prod.fst
      · simpa [hmem] using hgs
      · simp only [hmem, if_false]
        exact List.Nodup.append hgs (List.nodup_singleton _)
          (by simpa using hmem)

/-- In a group list with distinct keys, a member entry is its key's
bucket. -/
theorem keyBucket_of_mem :
    ∀ (gs : List (Nat × List Frame)), ((gs.map Prod.fst).Nodup) →
      ∀ g ∈ gs, keyBucket g.1 gs = g.2 := by
  intro gs
  induction gs with
  | nil => intro _ g hg; simp at hg
  | cons g₀ rest ih =>
      intro hnd g hg
      rcases List.mem_cons.mp hg with rfl | hmem
      · simp [keyBucket, List.find?_cons]
      · have hnd' : ((rest.map Prod.fst).Nodup) := (List.nodup_cons.mp hnd).2
        have hne : ¬(g₀.1 = g.1) := by
          intro h
          have : g₀.1 ∈ rest.map Prod.fst :=
            h ▸ List.mem_map_of_mem Prod.fst hmem
          exact (List.nodup_cons.mp hnd).1 this
        have := ih hnd' g hmem
        simp only [keyBucket, List.find?_cons] at this ⊢
        simpa [hne] using this

/-- Every entry of `groupByKey` holds exactly the input frames with its
key. -/
theorem groupByKey_snd_eq_filter (key : Frame → Nat) (l : List Frame) :
    ∀ g ∈ groupByKey key l, g.2 = l.filter (fun f => key f = g.1) := by
  intro g hg
  rw [← groupByKey_bucket key l g.1]
  exact (keyBucket_of_mem (groupByKey key l) (groupByKey_keys_nodup key l) g hg).symm

/-- `groupsFlatten` is the flattening of the group values. -/
theorem groupsFlatten_eq (gs : List (Nat × List Frame)) :
    groupsFlatten gs = (gs.map Prod.snd).flatten := by
  induction gs with
  | nil => rfl
  | cons g rest ih => simp [groupsFlatten, List.flatten_cons, ← ih]

/-- Inserting a frame adds exactly that frame to the flattened groups. -/
theorem groupsFlatten_insertGrouped (key : Frame → Nat) (f : Frame) :
    ∀ gs : List (Nat × List Frame),
      (groupsFlatten (insertGrouped key f gs)).Perm (f :: groupsFlatten gs) := by
  intro gs
  induction gs with
  | nil => simp [insertGrouped, groupsFlatten]
  | cons g rest ih =>
      rw [insertGrouped]
      by_cases hg : g.1 = key f
      · rw [if_pos hg]
        simp only [groupsFlatten, List.foldr_cons]
        rw [List.append_assoc]
        exact List.perm_middle.trans (List.Perm.refl _)
      · rw [if_neg hg]
        simp only [groupsFlatten, List.foldr_cons]
        exact List.Perm.trans (List.Perm.append_left g.2 ih) List.perm_middle

/-- Grouping preserves the frames as a multiset. -/
theorem groupByKey_flatten_perm (key : Frame → Nat) (l : List Frame) :
    (groupsFlatten (groupByKey key l)).Perm l := by
  rw [groupByKey]
  suffices h : ∀ gs : List (Nat × List Frame),
      (groupsFlatten (l.foldl (fun acc f => insertGrouped key f acc) gs)).Perm
        (groupsFlatten gs ++ l) by
    simpa [groupsFlatten] using h []
  induction l with
  | nil => intro gs; simp
  | cons f rest ih =>
      intro gs
      rw [List.foldl_cons]
      refine List.Perm.trans (ih (insertGrouped key f gs)) ?_
      refine List.Perm.trans
        (List.Perm.append_right rest (groupsFlatten_insertGrouped key f gs)) ?_
      exact List.perm_middle.symm

/-- Splitting the groups by a predicate preserves the flattened frames. -/
theorem groupsFlatten_filter_perm (P : (Nat × List Frame) → Bool) :
    ∀ gs : List (Nat × List Frame),
      (groupsFlatten (gs.filter P) ++ groupsFlatten (gs.filter (fun g => !P g))).Perm
        (groupsFlatten gs) := by
  intro gs
  induction gs with
  | nil => simp [groupsFlatten]
  | cons g rest ih =>
      by_cases hP : P g
      · simp only [List.filter_cons, hP, Bool.not_true, if_true, if_false]
        simp only [groupsFlatten, List.foldr_cons] at ih ⊢
        rw [List.append_assoc]
        exact List.Perm.append_left g.2 ih
      · simp only [List.filter_cons, hP, Bool.not_false, if_true, if_false]
        simp only [groupsFlatten, List.foldr_cons] at ih ⊢
        exact List.Perm.trans (List.perm_append_comm_assoc _ _ _)
          (List.Perm.append_left g.2 ih)

/-- Membership in the flattened groups. -/
theorem mem_groupsFlatten (gs : List (Nat × List Frame)) (x : Frame) :
    x ∈ groupsFlatten gs ↔ ∃ g ∈ gs, x ∈ g.2 := by
  rw [groupsFlatten_eq]
  simp only [List.mem_flatten, List.mem_map]
  constructor
  · rintro ⟨fs, ⟨g, hg, rfl⟩, hx⟩
    exact ⟨g, hg, hx⟩
  · rintro ⟨g, hg, hx⟩
    exact ⟨g.2, ⟨g, hg, rfl⟩, hx⟩

/-- Building the per-day entries (each sorted by time-of-day) preserves
the frames as a multiset. -/
theorem dailyFrames_map_sort (gs : List (Nat × List Frame)) :
    (dailyFrames (gs.map (fun g => DailyVideoEntry.mk g.1
        (g.2.insertionSort (fun a b => a.time ≤ b.time))))).Perm
      (groupsFlatten gs) := by
  induction gs with
  | nil => simp [dailyFrames, groupsFlatten]
  | cons g rest ih =>
      simp only [List.map_cons, dailyFrames, groupsFlatten, List.foldr_cons]
      exact List.Perm.append (List.perm_insertionSort _ g.2) ih

/-- Building the per-time groups (each sorted by date) preserves the
frames as a multiset. -/
theorem timeGroupFrames_map_sort (gs : List (Nat × List Frame)) :
    (timeGroupFrames (gs.map (fun g => TimeGroupEntry.mk g.1
        (g.2.insertionSort (fun a b => a.date ≤ b.date))))).Perm
      (groupsFlatten gs) := by
  induction gs with
  | nil => simp [timeGroupFrames, groupsFlatten]
  | cons g rest ih =>
      simp only [List.map_cons, timeGroupFrames, groupsFlatten, List.foldr_cons]
      exact List.Perm.append (List.perm_insertionSort _ g.2) ih

/-- `timeGroupFrames` as a flattening. -/
theorem timeGroupFrames_eq (es : List TimeGroupEntry) :
    timeGroupFrames es = (es.map (fun e => e.snapshots)).flatten := by
  induction es with
  | nil => rfl
  | cons e rest ih => simp [timeGroupFrames, List.flatten_cons, ← ih]

/-- Permuting the time-group entries permutes their flattened frames. -/
theorem timeGroupFrames_perm_of_perm {es1 es2 : List TimeGroupEntry}
    (h : es1.Perm es2) : (timeGroupFrames es1).Perm (timeGroupFrames es2) := by
  rw [timeGroupFrames_eq, timeGroupFrames_eq]
  exact (h.map (fun e => e.snapshots)).flatten

/-- A group list with distinct keys has at most one entry per key. -/
theorem countP_key_le_one (gs : List (Nat × List Frame))
    (hnd : (gs.map Prod.fst).Nodup) (d : Nat) :
    gs.countP (fun g => g.1 = d) ≤ 1 := by
  induction gs with
  | nil => simp
  | cons g rest ih =>
      rw [List.countP_cons]
      have hnd' := (List.nodup_cons.mp hnd).2
      by_cases hd : g.1 = d
      · have hzero : rest.countP (fun g => g.1 = d) = 0 := by
          rw [List.countP_eq_zero]
          intro g' hg'
          simp only [decide_eq_true_eq]
          intro hcon
          have : g.1 ∈ rest.map Prod.fst := by
            rw [hd, ← hcon]
            exact List.mem_map_of_mem Prod.fst hg'
          exact (List.nodup_cons.mp hnd).1 this
        simp [hd, hzero]
      · have : (decide (g.1 = d)) = false := by simp [hd]
        rw [this]
        simpa using ih hnd'

/-- Counting daily-video entries of a given date counts the underlying
groups with that key. -/
theorem length_filter_date_map_sort (d : Nat) :
    ∀ gs : List (Nat × List Frame),
      ((gs.map (fun g => DailyVideoEntry.mk g.1
          (g.2.insertionSort (fun a b => a.time ≤ b.time)))).filter
        (fun e => e.date = d)).length = gs.countP (fun g => g.1 = d) := by
  intro gs
  induction gs with
  | nil => simp
  | cons g rest ih =>
      simp only [List.map_cons, List.filter_cons, List.countP_cons]
      by_cases hd : g.1 = d
      · simp [hd, ih]
      · simp [hd, ih]

/-- A nonempty bucket comes from an actual group entry. -/
theorem mem_groupByKey_of_bucket_ne_nil (key : Frame → Nat) (l : List Frame)
    (d : Nat) (h : l.filter (fun f => key f = d) ≠ []) :
    ∃ g ∈ groupByKey key l, g.1 = d ∧ g.2 = l.filter (fun f => key f = d) := by
  have hb := groupByKey_bucket key l d
  rw [keyBucket] at hb
  cases hf : (groupByKey key l).find? (fun g => g.1 = d) with
  | none =>
      rw [hf] at hb
      exact absurd hb.symm (by simpa using h)
  | some g0 =>
      rw [hf] at hb
      have hmem := List.mem_of_find?_eq_some hf
      have hpred := List.find?_some hf
      exact ⟨g0, hmem, by simpa using hpred, hb⟩

/-- C6: the Distribution Analyzer partitions the stored frames by date:
every date with more than 2 frames yields exactly one `dailyVideos`
entry; each such entry carries exactly that date's frames sorted
ascending by time-of-day; every frame of a date with at most 2 frames
lands in a `timeGroups` entry of its own time-of-day with frames sorted
ascending by date; and the two outputs together hold every stored frame
exactly once (as a multiset). -/
theorem analyzer_partition (l : List Frame) :
    (∀ d : Nat, 2 < (l.filter (fun f => f.date = d)).length →
        ((analyzeSnapshotDistribution l).1.filter (fun e => e.date = d)).length = 1)
      ∧ (∀ e ∈ (analyzeSnapshotDistribution l).1,
          2 < (l.filter (fun f => f.date = e.date)).length
            ∧ e.snapshots.Perm (l.filter (fun f => f.date = e.date))
            ∧ List.Sorted (fun a b : Frame => a.time ≤ b.time) e.snapshots)
      ∧ (∀ tg ∈ (analyzeSnapshotDistribution l).2,
          List.Sorted (fun a b : Frame => a.date ≤ b.date) tg.snapshots
            ∧ ∀ f ∈ tg.snapshots, f.time = tg.time
                ∧ (l.filter (fun f2 => f2.date = f.date)).length ≤ 2)
      ∧ (dailyFrames (analyzeSnapshotDistribution l).1
          ++ timeGroupFrames (analyzeSnapshotDistribution l).2).Perm l := by
  have hfst : (analyzeSnapshotDistribution l).1 =
      ((groupByKey (fun f => f.date) l).filter (fun g => 2 < g.2.length)).map
        (fun g => DailyVideoEntry.mk g.1
          (g.2.insertionSort (fun a b => a.time ≤ b.time))) := rfl
  have hsnd : (analyzeSnapshotDistribution l).2 =
      ((groupByKey (fun f => f.time)
          (groupsFlatten ((groupByKey (fun f => f.date) l).filter
            (fun g => !(2 < g.2.length : Bool))))).map
        (fun g => TimeGroupEntry.mk g.1
          (g.2.insertionSort (fun a b => a.date ≤ b.date)))).insertionSort
        (fun a b => a.time ≤ b.time) := rfl
  have hnd := groupByKey_keys_nodup (fun f => f.date) l
  refine ⟨?_, ?_, ?_, ?_⟩
  · intro d hd
    rw [hfst, length_filter_date_map_sort]
    have hle : ((groupByKey (fun f => f.date) l).filter
        (fun g => 2 < g.2.length)).countP (fun g => g.1 = d) ≤ 1 :=
      le_trans (List.Sublist.countP_le _ (List.filter_sublist _))
        (countP_key_le_one _ hnd d)
    have hne : l.filter (fun f => f.date = d) ≠ [] := by
      intro hnil
      rw [hnil] at hd
      simp at hd
    rcases mem_groupByKey_of_bucket_ne_nil (fun f => f.date) l d hne with
      ⟨g0, hg0mem, hg0key, hg0snd⟩
    have hg0P : g0 ∈ (groupByKey (fun f => f.date) l).filter
        (fun g => 2 < g.2.length) := by
      rw [List.mem_filter]
      refine ⟨hg0mem, ?_⟩
      rw [hg0snd]
      simpa using hd
    have hpos : 0 < ((groupByKey (fun f => f.date) l).filter
        (fun g => 2 < g.2.length)).countP (fun g => g.1 = d) :=
      List.countP_pos_iff.mpr ⟨g0, hg0P, by simpa using hg0key⟩
    omega
  · intro e he
    rw [hfst] at he
    rcases List.mem_map.mp he with ⟨g, hgf, rfl⟩
    have hgmem : g ∈ groupByKey (fun f => f.date) l :=
      List.mem_of_mem_filter hgf
    have hP : 2 < g.2.length := by
      simpa using (List.mem_filter.mp hgf).2
    have hgsnd : g.2 = l.filter (fun f => f.date = g.1) :=
      groupByKey_snd_eq_filter (fun f => f.date) l g hgmem
    refine ⟨?_, ?_, ?_⟩
    · show 2 < (l.filter (fun f => f.date = g.1)).length
      rw [← hgsnd]
      exact hP
    · show (g.2.insertionSort (fun a b => a.time ≤ b.time)).Perm
        (l.filter (fun f => f.date = g.1))
      rw [← hgsnd]
      exact List.perm_insertionSort _ g.2
    · exact List.sorted_insertionSort _ g.2
  · intro tg htg
    rw [hsnd] at htg
    have htg' := (List.perm_insertionSort
      (fun a b : TimeGroupEntry => a.time ≤ b.time) _).mem_iff.mp htg
    rcases List.mem_map.mp htg' with ⟨g, hgmem, rfl⟩
    have hgsnd : g.2 = (groupsFlatten ((groupByKey (fun f => f.date) l).filter
        (fun g => !(2 < g.2.length : Bool)))).filter (fun f => f.time = g.1) :=
      groupByKey_snd_eq_filter (fun f => f.time) _ g hgmem
    refine ⟨List.sorted_insertionSort _ g.2, ?_⟩
    intro f hf
    have hf2 : f ∈ g.2 :=
      (List.perm_insertionSort (fun a b : Frame => a.date ≤ b.date) g.2).mem_iff.mp hf
    have hfpool := List.mem_filter.mp (hgsnd ▸ hf2)
    refine ⟨by simpa using hfpool.2, ?_⟩
    rcases (mem_groupsFlatten _ f).mp hfpool.1 with ⟨gd, hgd, hfgd⟩
    have hgdmem : gd ∈ groupByKey (fun f => f.date) l :=
      List.mem_of_mem_filter hgd
    have hsmall : ¬(2 < gd.2.length) := by
      have := (List.mem_filter.mp hgd).2
      simpa using this
    have hgdsnd : gd.2 = l.filter (fun f2 => f2.date = gd.1) :=
      groupByKey_snd_eq_filter (fun f => f.date) l gd hgdmem
    have hfdate : f.date = gd.1 := by
      have hmf := hgdsnd ▸ hfgd
      simpa using (List.mem_filter.mp hmf).2
    rw [hfdate, ← hgdsnd]
    omega
  · have h1 : (dailyFrames (analyzeSnapshotDistribution l).1).Perm
        (groupsFlatten ((groupByKey (fun f => f.date) l).filter
          (fun g => 2 < g.2.length))) := by
      rw [hfst]
      exact dailyFrames_map_sort _
    have h2 : (timeGroupFrames (analyzeSnapshotDistribution l).2).Perm
        (groupsFlatten ((groupByKey (fun f => f.date) l).filter
          (fun g => !(2 < g.2.length : Bool)))) := by
      rw [hsnd]
      refine List.Perm.trans
        (timeGroupFrames_perm_of_perm (List.perm_insertionSort _ _)) ?_
      refine List.Perm.trans (timeGroupFrames_map_sort _) ?_
      exact groupByKey_flatten_perm _ _
    refine List.Perm.trans (List.Perm.append h1 h2) ?_
    refine List.Perm.trans
      (groupsFlatten_filter_perm (fun g => 2 < g.2.length) _) ?_
    exact groupByKey_flatten_perm _ l

/-- C7 failing evaluation: when the directory listing enumerates the
2024-01-02 snapshots before the 2024-01-01 snapshots (both dates holding
three frames), `analyzeSnapshotDistribution` keeps the dates in listing
first-encounter order and `concatenateDailyVideos` writes its concat
list — and thus stitches the daily artifacts — as
`[2024-01-02, 2024-01-01]`, which is not ascending date order. -/
theorem concat_order_follows_listing :
    concatenationOrder (analyzeSnapshotDistribution listingLaterDateFirst).1
        = [20240102, 20240101]
      ∧ ¬ List.Sorted (fun a b : Nat => a ≤ b)
          (concatenationOrder (analyzeSnapshotDistribution listingLaterDateFirst).1) := by
  have heq : concatenationOrder (analyzeSnapshotDistribution listingLaterDateFirst).1
      = [20240102, 20240101] := by decide
  refine ⟨heq, ?_⟩
  intro hs
  rw [heq] at hs
  have := List.rel_of_sorted_cons hs 20240101 (by simp)
  omega
